import Mathlib

/-!
Verification of the tealdeer core: page resolver, cache freshness checker,
variable splitter, line classifier / compact filtering, and the page
renderer (`print_page` from src/output.rs).

The renderer is embedded directly from src/output.rs.  The resolver,
freshness checker, variable splitter and classifier live in source files
that are not part of this tree (cache.rs, formatter.rs, line_iterator.rs);
those are modelled from the specification, as marked on each definition.
-/

namespace Tldr

/-! ## Cache freshness checker -/

/-- Modelled from the spec: `is_stale` from cache.rs (not under src/).
"stale iff `now - cache_mtime > interval_hours * 3600` seconds
(integer seconds, no rounding leniency)". -/
def is_stale (cache_mtime now interval_hours : Int) : Bool :=
  now - cache_mtime > interval_hours * 3600

/-- Modelled from the spec: `should_autoupdate` from cache.rs (not under
src/), "the logical AND of both" gates. -/
def should_autoupdate (auto_update_enabled stale : Bool) : Bool :=
  auto_update_enabled && stale

/-! ## Page resolver -/

/-- Modelled from the spec: the filesystem view the resolver consults
(which paths exist on disk). -/
structure FsView where
  pathExists : String → Bool

/-- Path of the custom override page `custom_pages_dir/<command>.page`. -/
def overridePath (custom_pages_dir command : String) : String :=
  custom_pages_dir ++ "/" ++ command ++ ".page"

/-- Path of the custom patch `custom_pages_dir/<command>.patch`. -/
def patchPath (custom_pages_dir command : String) : String :=
  custom_pages_dir ++ "/" ++ command ++ ".patch"

/-- Path of a main cache page `cache_root/pages/<platform>/<command>.md`. -/
def mainPath (cache_root platform command : String) : String :=
  cache_root ++ "/pages/" ++ platform ++ "/" ++ command ++ ".md"

/-- Modelled from the spec: the main-page search of the resolver
(cache.rs, not under src/): look under the requested platform, then fall
back to "common" when the platform is not already "common". -/
def findMainPage (fs : FsView) (cache_root platform command : String) :
    Option String :=
  if fs.pathExists (mainPath cache_root platform command) then
    some (mainPath cache_root platform command)
  else if platform ≠ "common" ∧ fs.pathExists (mainPath cache_root "common" command) then
    some (mainPath cache_root "common" command)
  else
    none

/-- Modelled from the spec: `resolve` from cache.rs (not under src/).
1. an existing override `.page` wins unconditionally (single element, no
   patch);  2. otherwise search the main page (platform, then "common"),
   failing with NotFound (`none`) when absent;  3. append the `.patch`
   path after the main page when it exists. -/
def resolve (fs : FsView) (command platform cache_root custom_pages_dir : String) :
    Option (List String) :=
  if fs.pathExists (overridePath custom_pages_dir command) then
    some [overridePath custom_pages_dir command]
  else
    match findMainPage fs cache_root platform command with
    | none => none
    | some main =>
      if fs.pathExists (patchPath custom_pages_dir command) then
        some [main, patchPath custom_pages_dir command]
      else
        some [main]

/-! ## Variable splitter -/

/-- A span of an example-code line: literal text or a `\x7b\x7b`…`\x7d\x7d`
placeholder.  Text is carried as a character list. -/
inductive Span where
  | Literal (text : List Char) : Span
  | Placeholder (text : List Char) : Span
deriving DecidableEq, Repr

/-- The text of a span, delimiters stripped. -/
def Span.text : Span → List Char
  | .Literal t => t
  | .Placeholder t => t

/-- A span with placeholder delimiters reinserted. -/
def Span.reassemble : Span → List Char
  | .Literal t => t
  | .Placeholder t => '\x7b' :: '\x7b' :: t ++ ['\x7d', '\x7d']

/-- Scan for the first occurrence of the doubled delimiter `d d`; on
success return the text before it and the text after it. -/
def findDelim (d : Char) : List Char → Option (List Char × List Char)
  | [] => none
  | [_] => none
  | c :: c₂ :: rest =>
    if c = d ∧ c₂ = d then some ([], rest)
    else (findDelim d (c₂ :: rest)).map (fun p => (c :: p.1, p.2))

theorem findDelim_decomp (d : Char) :
    ∀ s before rest, findDelim d s = some (before, rest) →
      s = before ++ d :: d :: rest := by
  intro s
  induction s with
  | nil => intro b r h; simp [findDelim] at h
  | cons c tl ih =>
    intro b r h
    match tl, h with
    | [], h => simp [findDelim] at h
    | c₂ :: rest, h =>
      rw [findDelim] at h
      by_cases hd : c = d ∧ c₂ = d
      · rw [if_pos hd] at h
        obtain ⟨hc, hc₂⟩ := hd
        simp at h
        obtain ⟨hb, hr⟩ := h
        subst hb; subst hr; subst hc; subst hc₂; rfl
      · rw [if_neg hd] at h
        match hfo : findDelim d (c₂ :: rest) with
        | none => rw [hfo] at h; simp at h
        | some (b', r') =>
          rw [hfo] at h
          simp at h
          obtain ⟨hb, hr⟩ := h
          subst hb; subst hr
          simpa using congrArg (List.cons c) (ih b' r' hfo)

theorem findDelim_length_lt (d : Char) (s before rest : List Char)
    (h : findDelim d s = some (before, rest)) :
    rest.length < s.length := by
  have := findDelim_decomp d s before rest h
  subst this
  simp
  omega

/-- Modelled from the spec: `VariableSplitter.split` (formatter.rs, not
under src/).  Scan left to right; on encountering `\x7b\x7b`, search for
the next `\x7d\x7d`; the substring between them becomes a Placeholder,
the text before it a preceding Literal (omitted if empty).  An unmatched
`\x7b\x7b` and everything after it is kept as a Literal (fail-soft). -/
def split (s : List Char) : List Span :=
  match h : findDelim '\x7b' s with
  | none => if s = [] then [] else [.Literal s]
  | some (before, rest) =>
    match h₂ : findDelim '\x7d' rest with
    | none =>
      (if before = [] then [] else [.Literal before]) ++ [.Literal ('\x7b' :: '\x7b' :: rest)]
    | some (inner, after) =>
      (if before = [] then [] else [.Literal before]) ++ .Placeholder inner :: split after
termination_by s.length
decreasing_by
  have h1 := findDelim_length_lt '\x7b' s before rest h
  have h2 := findDelim_length_lt '\x7d' rest inner after h₂
  omega

/-- The input text with every matched `\x7b\x7b` `\x7d\x7d` delimiter pair
removed (the interior kept), defined by the same left-to-right scan. -/
def removeDelims (s : List Char) : List Char :=
  match h : findDelim '\x7b' s with
  | none => s
  | some (before, rest) =>
    match h₂ : findDelim '\x7d' rest with
    | none => s
    | some (inner, after) => before ++ inner ++ removeDelims after
termination_by s.length
decreasing_by
  have h1 := findDelim_length_lt '\x7b' s before rest h
  have h2 := findDelim_length_lt '\x7d' rest inner after h₂
  omega

/-- Concatenation of the texts of all spans, delimiters stripped. -/
def concatTexts (spans : List Span) : List Char :=
  (spans.map Span.text).flatten

/-- Concatenation of all spans with placeholder delimiters reinserted. -/
def reassembleAll (spans : List Span) : List Char :=
  (spans.map Span.reassemble).flatten

theorem split_eq_noOpen (s : List Char) (h : findDelim '\x7b' s = none) :
    split s = if s = [] then [] else [.Literal s] := by
  rw [split.eq_def, h]

theorem split_eq_noClose (s before rest : List Char)
    (h : findDelim '\x7b' s = some (before, rest))
    (h₂ : findDelim '\x7d' rest = none) :
    split s = (if before = [] then [] else [.Literal before])
      ++ [.Literal ('\x7b' :: '\x7b' :: rest)] := by
  rw [split.eq_def]
  split
  next heq => rw [heq] at h; cases h
  next b r heq =>
    rw [heq] at h
    have hb : b = before := by injection h with h'; injection h' with hb hr
    have hr : r = rest := by injection h with h'; injection h' with hb hr
    subst hb; subst hr
    split
    next => rfl
    next i a heq₂ => rw [heq₂] at h₂; cases h₂

theorem split_eq_matched (s before rest inner after : List Char)
    (h : findDelim '\x7b' s = some (before, rest))
    (h₂ : findDelim '\x7d' rest = some (inner, after)) :
    split s = (if before = [] then [] else [.Literal before])
      ++ .Placeholder inner :: split after := by
  rw [split.eq_def]
  split
  next heq => rw [heq] at h; cases h
  next b r heq =>
    rw [heq] at h
    have hb : b = before := by injection h with h'; injection h' with hb hr
    have hr : r = rest := by injection h with h'; injection h' with hb hr
    subst hb; subst hr
    split
    next heq₂ => rw [heq₂] at h₂; cases h₂
    next i a heq₂ =>
      rw [heq₂] at h₂
      have hi : i = inner := by injection h₂ with h'; injection h' with hi ha
      have ha : a = after := by injection h₂ with h'; injection h' with hi ha
      subst hi; subst ha; rfl

theorem removeDelims_eq_noOpen (s : List Char) (h : findDelim '\x7b' s = none) :
    removeDelims s = s := by
  rw [removeDelims.eq_def, h]

theorem removeDelims_eq_noClose (s before rest : List Char)
    (h : findDelim '\x7b' s = some (before, rest))
    (h₂ : findDelim '\x7d' rest = none) :
    removeDelims s = s := by
  rw [removeDelims.eq_def]
  split
  next => rfl
  next b r heq =>
    rw [heq] at h
    have hr : r = rest := by injection h with h'; injection h' with hb hr
    subst hr
    split
    next => rfl
    next i a heq₂ => rw [heq₂] at h₂; cases h₂

theorem removeDelims_eq_matched (s before rest inner after : List Char)
    (h : findDelim '\x7b' s = some (before, rest))
    (h₂ : findDelim '\x7d' rest = some (inner, after)) :
    removeDelims s = before ++ inner ++ removeDelims after := by
  rw [removeDelims.eq_def]
  split
  next heq => rw [heq] at h; cases h
  next b r heq =>
    rw [heq] at h
    have hb : b = before := by injection h with h'; injection h' with hb hr
    have hr : r = rest := by injection h with h'; injection h' with hb hr
    subst hb; subst hr
    split
    next heq₂ => rw [heq₂] at h₂; cases h₂
    next i a heq₂ =>
      rw [heq₂] at h₂
      have hi : i = inner := by injection h₂ with h'; injection h' with hi ha
      have ha : a = after := by injection h₂ with h'; injection h' with hi ha
      subst hi; subst ha; rfl

theorem split_concatTexts (s : List Char) :
    concatTexts (split s) = removeDelims s := by
  induction s using split.induct with
  | case1 h =>
    rw [split_eq_noOpen _ h, removeDelims_eq_noOpen _ h]
    simp [concatTexts]
  | case2 s h hs =>
    rw [split_eq_noOpen _ h, removeDelims_eq_noOpen _ h, if_neg hs]
    simp [concatTexts, Span.text]
  | case3 s before rest h h₂ =>
    rw [split_eq_noClose _ _ _ h h₂, removeDelims_eq_noClose _ _ _ h h₂,
      findDelim_decomp '\x7b' s before rest h]
    by_cases hb : before = [] <;> simp [hb, concatTexts, Span.text]
  | case4 s before rest h inner after h₂ ih =>
    rw [split_eq_matched _ _ _ _ _ h h₂, removeDelims_eq_matched _ _ _ _ _ h h₂, ← ih]
    by_cases hb : before = [] <;> simp [hb, concatTexts, Span.text]

theorem split_reassemble (s : List Char) :
    reassembleAll (split s) = s := by
  induction s using split.induct with
  | case1 h =>
    rw [split_eq_noOpen _ h]
    simp [reassembleAll]
  | case2 s h hs =>
    rw [split_eq_noOpen _ h, if_neg hs]
    simp [reassembleAll, Span.reassemble]
  | case3 s before rest h h₂ =>
    rw [split_eq_noClose _ _ _ h h₂, findDelim_decomp '\x7b' s before rest h]
    by_cases hb : before = [] <;> simp [hb, reassembleAll, Span.reassemble]
  | case4 s before rest h inner after h₂ ih =>
    rw [split_eq_matched _ _ _ _ _ h h₂, findDelim_decomp '\x7b' s before rest h,
      findDelim_decomp '\x7d' rest inner after h₂]
    by_cases hb : before = [] <;>
      simp [hb, reassembleAll, Span.reassemble] at ih ⊢ <;> simp [ih]

/-! ## Line classifier and compact-mode filtering -/

/-- A typed render token emitted by the line classifier. -/
inductive RenderToken where
  | CommandName (text : String) : RenderToken
  | Description (text : String) : RenderToken
  | ExampleText (text : String) : RenderToken
  | ExampleCode (spans : List Span) : RenderToken
  | Linebreak : RenderToken
deriving DecidableEq, Repr

/-- Modelled from the spec: the per-line transition rules of the
LineClassifier (formatter.rs, not under src/), checked in precedence
order: `# ` title, `> ` description, `- ` usage bullet, a line wrapped in
one pair of backticks (length ≥ 2), otherwise Linebreak (fail-soft). -/
def classifyLine (line : String) : RenderToken :=
  if line.startsWith "# " then
    .CommandName (line.drop 2).trim
  else if line.startsWith "> " then
    .Description (line.drop 2).trim
  else if line.startsWith "- " then
    .ExampleText (line.drop 2).trim
  else if line.length ≥ 2 && line.startsWith "`" && line.endsWith "`" then
    .ExampleCode (split ((line.drop 1).dropRight 1).toList)
  else
    .Linebreak

/-- Modelled from the spec: the compact-mode lookback decision (one bit of
lookback state): a Linebreak is dropped when the previously emitted token
was a Linebreak (collapse runs) or a CommandName (no blank line directly
under the title); every other token is kept. -/
def compactKeep (last : Option RenderToken) : RenderToken → Bool
  | .Linebreak =>
    match last with
    | some .Linebreak => false
    | some (.CommandName _) => false
    | _ => true
  | _ => true

/-- Compact filtering over a token list, threading the last *emitted*
token as the lookback state. -/
def compactFilterAux (last : Option RenderToken) : List RenderToken → List RenderToken
  | [] => []
  | t :: ts =>
    if compactKeep last t then t :: compactFilterAux (some t) ts
    else compactFilterAux last ts

/-- Modelled from the spec: the compact-mode contract of the classifier
output (formatter.rs, not under src/): in compact mode the token stream
is filtered with the lookback rule; in non-compact mode it passes through
unmodified. -/
def applyCompact (compact : Bool) (ts : List RenderToken) : List RenderToken :=
  if compact then compactFilterAux none ts else ts

/-! ## Renderer: `print_page` (src/output.rs) -/

/-- The snippet type consumed by `print_snippet` (src/output.rs). -/
inductive HighlightingSnippet where
  | CommandName (s : String) : HighlightingSnippet
  | Variable (s : String) : HighlightingSnippet
  | NormalCode (s : String) : HighlightingSnippet
  | Description (s : String) : HighlightingSnippet
  | Text (s : String) : HighlightingSnippet
  | Linebreak : HighlightingSnippet
deriving DecidableEq, Repr

/-- Modelled from the spec: `HighlightingSnippet::is_empty` (formatter.rs,
not under src/): a text-carrying snippet is empty iff its text is empty; a
Linebreak produces a newline and is never empty. -/
def HighlightingSnippet.is_empty : HighlightingSnippet → Bool
  | .CommandName s => s.isEmpty
  | .Variable s => s.isEmpty
  | .NormalCode s => s.isEmpty
  | .Description s => s.isEmpty
  | .Text s => s.isEmpty
  | .Linebreak => false

/-- A style directive, modelled as the paint function it applies. -/
structure StyleConfig where
  command_name : String → String
  example_variable : String → String
  example_code : String → String
  description : String → String
  example_text : String → String

structure DisplayConfig where
  compact : Bool

structure Config where
  style : StyleConfig
  display : DisplayConfig

/-- An operation performed on the output sink. -/
inductive SinkOp where
  | write (s : String) : SinkOp
  | flush : SinkOp
deriving DecidableEq, Repr

def SinkOp.isFlush : SinkOp → Bool
  | .flush => true
  | .write _ => false

/-- The sink with a failure schedule: `ok n` tells whether the n-th sink
operation succeeds. -/
structure SinkModel where
  ok : Nat → Bool

/-- The sink state: number of operations attempted so far, and the trace
of operations that succeeded. -/
structure OutState where
  count : Nat
  trace : List SinkOp
deriving DecidableEq, Repr

/-- Attempt one sink operation. -/
def emit (sink : SinkModel) (op : SinkOp) (st : OutState) : Option OutState :=
  if sink.ok st.count then some ⟨st.count + 1, st.trace ++ [op]⟩ else none

/-- Outcome of `print_page`: `Ok(())`, `Err(msg)`, or a panic (process
abort) from an `unwrap`. -/
inductive PrintResult where
  | ok : PrintResult
  | err (msg : String) : PrintResult
  | panicked (msg : String) : PrintResult
deriving DecidableEq, Repr

/-- Contents of one page file: each line read either yields the line text
or an I/O error. -/
structure FileData where
  lines : List (Except String String)

/-- The filesystem seen by `print_page`: `none` means the file fails to
open. -/
abbrev FileSystem := String → Option FileData

/-- The resolved page handed to `print_page` (cache.rs
`PageLookupResult`), modelled by the path sequence its `paths()` iterator
yields. -/
structure PageLookupResult where
  paths : List String

/-- The string written for one snippet by `print_snippet`
(src/output.rs lines 56-71): CommandName/Variable/NormalCode are inline
`write!`; Description/Text are two-space-indented `writeln!`; Linebreak
is a bare `writeln!`. -/
def print_snippet (style : StyleConfig) : HighlightingSnippet → String
  | .CommandName s => style.command_name s
  | .Variable s => style.example_variable s
  | .NormalCode s => style.example_code s
  | .Description s => "  " ++ style.description s ++ "\n"
  | .Text s => "  " ++ style.example_text s ++ "\n"
  | .Linebreak => "\n"

/-- The `yield_snippet` closure (src/output.rs lines 32-39): an empty
snippet is skipped (`Ok(())`), otherwise `print_snippet` writes it and a
write failure becomes a WriteError surfaced as a message. -/
def yield_snippet (sink : SinkModel) (style : StyleConfig) (st : OutState)
    (snip : HighlightingSnippet) : OutState × Option PrintResult :=
  if snip.is_empty then (st, none)
  else
    match emit sink (.write (print_snippet style snip)) st with
    | some st' => (st', none)
    | none => (st, some (.err "Could not write to stdout: write error"))

/-- Yield a list of snippets in order, aborting on the first failure. -/
def yieldSnippets (sink : SinkModel) (style : StyleConfig) :
    List HighlightingSnippet → OutState → OutState × Option PrintResult
  | [], st => (st, none)
  | s :: rest, st =>
    match yield_snippet sink style st s with
    | (st', none) => yieldSnippets sink style rest st'
    | (st', some r) => (st', some r)

/-- The snippets rendered for one classified token. -/
def tokenSnippets : RenderToken → List HighlightingSnippet
  | .CommandName s => [.CommandName s]
  | .Description s => [.Description s]
  | .ExampleText s => [.Text s]
  | .ExampleCode spans =>
    spans.map fun sp =>
      match sp with
      | .Literal t => .NormalCode (String.mk t)
      | .Placeholder t => .Variable (String.mk t)
  | .Linebreak => [.Linebreak]

/-- Modelled from the spec: `highlight_lines` (formatter.rs, not under
src/): consume raw lines lazily, classify each, apply compact filtering
when `keep_empty_lines` is false, and yield the resulting snippets; a
line-read I/O error aborts the stream and surfaces as a message
(src/output.rs line 45 formats it as "Could not write to stdout: …"). -/
def highlight_lines (sink : SinkModel) (style : StyleConfig)
    (keep_empty_lines : Bool) :
    List (Except String String) → Option RenderToken → OutState →
      OutState × Option PrintResult
  | [], _, st => (st, none)
  | .error e :: _, _, st => (st, some (.err ("Could not write to stdout: " ++ e)))
  | .ok line :: rest, last, st =>
    let t := classifyLine line
    if keep_empty_lines = false ∧ compactKeep last t = false then
      highlight_lines sink style keep_empty_lines rest last st
    else
      match yieldSnippets sink style (tokenSnippets t) st with
      | (st', none) => highlight_lines sink style keep_empty_lines rest (some t) st'
      | (st', some r) => (st', some r)

/-- The markdown passthrough loop (src/output.rs lines 27-30):
`writeln!(handle, "\x7b\x7d", line.unwrap())` — the unwrap panics on a
line-read error, a write failure surfaces as a message. -/
def printRawLines (sink : SinkModel) :
    List (Except String String) → OutState → OutState × Option PrintResult
  | [], st => (st, none)
  | .error e :: _, st => (st, some (.panicked e))
  | .ok line :: rest, st =>
    match emit sink (.write (line ++ "\n")) st with
    | some st' => printRawLines sink rest st'
    | none => (st, some (.err "Could not write to stdout"))

/-- The per-path loop of `print_page` (src/output.rs lines 21-47): open
each path (an open failure surfaces as "Could not open file: …"), then
either copy the raw lines (markdown passthrough) or run
`highlight_lines` with `!config.display.compact` as `keep_empty_lines`. -/
def printPaths (fs : FileSystem) (sink : SinkModel) (enable_markdown : Bool)
    (config : Config) :
    List String → OutState → OutState × Option PrintResult
  | [], st => (st, none)
  | path :: rest, st =>
    match fs path with
    | none => (st, some (.err ("Could not open file: " ++ path)))
    | some file =>
      match
        if enable_markdown then printRawLines sink file.lines st
        else highlight_lines sink config.style (!config.display.compact)
          file.lines none st
      with
      | (st', none) => printPaths fs sink enable_markdown config rest st'
      | (st', some r) => (st', some r)

/-- `print_page` (src/output.rs lines 13-54): render every path of the
resolved page, then flush the sink exactly once; any failure returns the
corresponding message without reaching the flush. -/
def print_page (fs : FileSystem) (sink : SinkModel) (page : PageLookupResult)
    (enable_markdown : Bool) (config : Config) : List SinkOp × PrintResult :=
  match printPaths fs sink enable_markdown config page.paths ⟨0, []⟩ with
  | (st, some r) => (st.trace, r)
  | (st, none) =>
    match emit sink .flush st with
    | some st' => (st'.trace, .ok)
    | none => (st.trace, .err "Could not flush stdout")

/-! ## Claim theorems: resolver, freshness, splitter -/

theorem overridePath_ne_patchPath (d c : String) :
    overridePath d c ≠ patchPath d c := by
  intro h
  have hlen := congrArg String.length h
  simp [overridePath, patchPath, String.length_append] at hlen
  exact absurd hlen (by decide)

/-- C1: whenever the override file `custom_pages_dir/<command>.page`
exists, `resolve` returns exactly the single-element sequence holding the
override path, and the patch path `custom_pages_dir/<command>.patch` does
not appear in that result (whether or not a patch file exists). -/
theorem C1_override_wins (fs : FsView)
    (command platform cache_root custom_pages_dir : String)
    (h : fs.pathExists (overridePath custom_pages_dir command) = true) :
    resolve fs command platform cache_root custom_pages_dir
      = some [overridePath custom_pages_dir command] ∧
    patchPath custom_pages_dir command
      ∉ [overridePath custom_pages_dir command] := by
  constructor
  · simp [resolve, h]
  · simp [List.mem_singleton]
    exact fun hc => overridePath_ne_patchPath custom_pages_dir command hc.symm

/-- Witness for C1 at a filesystem where both the override and the patch
file exist. -/
theorem C1_override_wins_witness :
    (FsView.mk fun _ => true).pathExists (overridePath "custom" "tar") = true ∧
    (resolve (FsView.mk fun _ => true) "tar" "linux" "cache" "custom"
        = some [overridePath "custom" "tar"] ∧
      patchPath "custom" "tar" ∉ [overridePath "custom" "tar"]) :=
  ⟨rfl, C1_override_wins (FsView.mk fun _ => true) "tar" "linux" "cache" "custom" rfl⟩

/-- C5: with no override, a main page found, and an existing patch file,
`resolve` returns exactly the two-element sequence main page first, patch
path second. -/
theorem C5_patch_appended (fs : FsView)
    (command platform cache_root custom_pages_dir main : String)
    (hov : fs.pathExists (overridePath custom_pages_dir command) = false)
    (hmain : findMainPage fs cache_root platform command = some main)
    (hpatch : fs.pathExists (patchPath custom_pages_dir command) = true) :
    resolve fs command platform cache_root custom_pages_dir
      = some [main, patchPath custom_pages_dir command] := by
  simp [resolve, hov, hmain, hpatch]

/-- Witness for C5 at a filesystem holding a common main page and a patch
but no override. -/
theorem C5_patch_appended_witness :
    (FsView.mk fun p => !(p == overridePath "custom" "tar")).pathExists
        (overridePath "custom" "tar") = false ∧
    findMainPage (FsView.mk fun p => !(p == overridePath "custom" "tar"))
        "cache" "linux" "tar" = some (mainPath "cache" "linux" "tar") ∧
    (FsView.mk fun p => !(p == overridePath "custom" "tar")).pathExists
        (patchPath "custom" "tar") = true ∧
    resolve (FsView.mk fun p => !(p == overridePath "custom" "tar"))
        "tar" "linux" "cache" "custom"
      = some [mainPath "cache" "linux" "tar", patchPath "custom" "tar"] :=
  ⟨by decide, by decide, by decide,
    C5_patch_appended (FsView.mk fun p => !(p == overridePath "custom" "tar"))
      "tar" "linux" "cache" "custom" (mainPath "cache" "linux" "tar")
      (by decide) (by decide) (by decide)⟩

/-- C7: the splitter is lossless and order-preserving: reinserting the
delimiters of the produced spans reproduces the input exactly;
concatenating the span texts equals the input with every matched
`\x7b\x7b` `\x7d\x7d` pair removed; and an unmatched `\x7b\x7b` keeps its
text as a trailing Literal (fail-soft). -/
theorem C7_split_lossless :
    (∀ s : List Char, reassembleAll (split s) = s) ∧
    (∀ s : List Char, concatTexts (split s) = removeDelims s) ∧
    split (String.toList "unterminated \x7b\x7boops")
      = [.Literal (String.toList "unterminated "),
         .Literal (String.toList "\x7b\x7boops")] := by
  refine ⟨split_reassemble, split_concatTexts, ?_⟩
  have h : findDelim '\x7b' (String.toList "unterminated \x7b\x7boops")
      = some (String.toList "unterminated ", String.toList "oops") := by decide
  have h₂ : findDelim '\x7d' (String.toList "oops") = none := by decide
  rw [split_eq_noClose _ _ _ h h₂]
  decide

/-- C8: staleness is the exact integer-second comparison
`now - cache_mtime > interval_hours * 3600`: false at 23 hours under a
24-hour interval, true at 25 hours; and auto-update never triggers when
disabled. -/
theorem C8_is_stale_exact :
    (∀ cache_mtime now interval_hours : Int,
      is_stale cache_mtime now interval_hours = true ↔
        now - cache_mtime > interval_hours * 3600) ∧
    is_stale 0 (23 * 3600) 24 = false ∧
    is_stale 0 (25 * 3600) 24 = true ∧
    should_autoupdate false true = false := by
  refine ⟨fun m n i => ?_, by decide, by decide, rfl⟩
  simp [is_stale]

/-! ## Claim theorems: compact mode and renderer -/

theorem compactKeep_eq_true_iff (a b : RenderToken) :
    compactKeep (some a) b = true ↔
      ¬(b = .Linebreak ∧ (a = .Linebreak ∨ ∃ s, a = .CommandName s)) := by
  cases b <;> cases a <;> simp [compactKeep]

theorem compactFilterAux_chain (ts : List RenderToken) :
    ∀ last, List.Chain' (fun a b => compactKeep (some a) b = true)
        (compactFilterAux last ts) ∧
      ∀ b ∈ (compactFilterAux last ts).head?, compactKeep last b = true := by
  induction ts with
  | nil => intro last; simp [compactFilterAux]
  | cons t ts ih =>
    intro last
    by_cases hk : compactKeep last t = true
    · rw [compactFilterAux, if_pos hk]
      refine ⟨List.chain'_cons'.mpr ⟨fun b hb => (ih (some t)).2 b hb, (ih (some t)).1⟩, ?_⟩
      intro b hb
      simp at hb
      subst hb
      exact hk
    · rw [compactFilterAux, if_neg hk]
      exact ih last

/-- C9: in non-compact mode every token passes through unmodified; in
compact mode no Linebreak in the output directly follows another
Linebreak or a CommandName (runs collapse, and the blank line under the
title is suppressed entirely — checked on the spec's example). -/
theorem C9_compact_mode_contract :
    (∀ ts : List RenderToken, applyCompact false ts = ts) ∧
    (∀ ts : List RenderToken,
      List.Chain'
        (fun a b => ¬(b = .Linebreak ∧ (a = .Linebreak ∨ ∃ s, a = .CommandName s)))
        (applyCompact true ts)) ∧
    applyCompact true
        [.CommandName "tar", .Linebreak, .Linebreak, .Description "archive tool"]
      = [.CommandName "tar", .Description "archive tool"] := by
  refine ⟨fun ts => rfl, fun ts => ?_, by decide⟩
  have h := (compactFilterAux_chain ts none).1
  exact List.Chain'.imp (fun a b hab => (compactKeep_eq_true_iff a b).mp hab) h

/-- C6: a snippet whose text is empty is skipped entirely by the
`yield_snippet` closure: the sink state is left exactly as it was and no
error is raised. -/
theorem C6_empty_snippet_no_output (sink : SinkModel) (style : StyleConfig)
    (st : OutState) (snip : HighlightingSnippet)
    (h : snip.is_empty = true) :
    yield_snippet sink style st snip = (st, none) := by
  simp [yield_snippet, h]

/-- Witness for C6 at a Description that is empty after trimming. -/
theorem C6_empty_snippet_no_output_witness :
    (HighlightingSnippet.Description "").is_empty = true ∧
    yield_snippet (SinkModel.mk fun _ => true) (StyleConfig.mk id id id id id)
        (OutState.mk 0 []) (.Description "")
      = (OutState.mk 0 [], none) :=
  ⟨rfl, C6_empty_snippet_no_output (SinkModel.mk fun _ => true)
    (StyleConfig.mk id id id id id) (OutState.mk 0 []) (.Description "") rfl⟩

/-- C2: evaluating `print_page` in markdown passthrough mode on a page
whose first line read fails: `line.unwrap()` (src/output.rs line 28)
panics and aborts the process instead of returning the error as a
user-facing message. -/
theorem C2_markdown_read_failure_panics :
    print_page (fun _ => some (FileData.mk [Except.error "read failure"]))
        (SinkModel.mk fun _ => true) (PageLookupResult.mk ["page"]) true
        (Config.mk (StyleConfig.mk id id id id id) (DisplayConfig.mk false))
      = ([], .panicked "read failure") := by
  rfl

/-- C10: on a resolved page with zero paths, `print_page` writes no page
content, flushes the sink exactly once, and returns Ok. -/
theorem C10_empty_paths_ok (fs : FileSystem) (sink : SinkModel)
    (enable_markdown : Bool) (config : Config)
    (h : sink.ok 0 = true) :
    print_page fs sink (PageLookupResult.mk []) enable_markdown config
      = ([SinkOp.flush], .ok) := by
  simp [print_page, printPaths, emit, h]

/-- Witness for C10 at a concrete filesystem and sink. -/
theorem C10_empty_paths_ok_witness :
    (SinkModel.mk fun _ => true).ok 0 = true ∧
    print_page (fun _ => none) (SinkModel.mk fun _ => true)
        (PageLookupResult.mk []) false
        (Config.mk (StyleConfig.mk id id id id id) (DisplayConfig.mk false))
      = ([SinkOp.flush], .ok) :=
  ⟨rfl, C10_empty_paths_ok (fun _ => none) (SinkModel.mk fun _ => true) false
    (Config.mk (StyleConfig.mk id id id id id) (DisplayConfig.mk false)) rfl⟩

/-! ## Claim theorems: passthrough trace and flush discipline -/

/-- The successfully read lines of a file. -/
def okLines (lines : List (Except String String)) : List String :=
  lines.filterMap fun l =>
    match l with
    | .ok s => some s
    | .error _ => none

/-- All raw lines of a path sequence, in read order. -/
def pageLines (fs : FileSystem) (paths : List String) : List String :=
  (paths.map fun p =>
    match fs p with
    | some f => okLines f.lines
    | none => []).flatten

theorem printRawLines_all_ok (sink : SinkModel) (h : ∀ n, sink.ok n = true)
    (lines : List (Except String String))
    (hl : ∀ l ∈ lines, ∃ s, l = .ok s) :
    ∀ st, printRawLines sink lines st
      = (OutState.mk (st.count + (okLines lines).length)
          (st.trace ++ (okLines lines).map fun s => .write (s ++ "\n")), none) := by
  induction lines with
  | nil => intro st; simp [printRawLines, okLines]
  | cons l rest ih =>
    intro st
    obtain ⟨s, rfl⟩ := hl l (by simp)
    have ih' := ih (fun l hl' => hl l (by simp [hl']))
      (OutState.mk (st.count + 1) (st.trace ++ [.write (s ++ "\n")]))
    rw [printRawLines]
    simp [emit, h, ih', okLines]
    omega

theorem printPaths_markdown_all_ok (fs : FileSystem) (sink : SinkModel)
    (config : Config) (h : ∀ n, sink.ok n = true) (paths : List String)
    (hp : ∀ p ∈ paths, ∃ f, fs p = some f ∧ ∀ l ∈ f.lines, ∃ s, l = .ok s) :
    ∀ st, printPaths fs sink true config paths st
      = (OutState.mk (st.count + (pageLines fs paths).length)
          (st.trace ++ (pageLines fs paths).map fun s => .write (s ++ "\n")), none) := by
  induction paths with
  | nil => intro st; simp [printPaths, pageLines]
  | cons p rest ih =>
    intro st
    obtain ⟨f, hf, hl⟩ := hp p (by simp)
    have hraw := printRawLines_all_ok sink h f.lines hl st
    have ih' := ih (fun q hq => hp q (by simp [hq]))
      (OutState.mk (st.count + (okLines f.lines).length)
        (st.trace ++ (okLines f.lines).map fun s => .write (s ++ "\n")))
    rw [printPaths, hf]
    simp [hraw, ih', pageLines, hf]
    omega

/-- C3: with every path readable and every sink write succeeding,
markdown passthrough writes exactly one line per raw input line, each
carrying the raw text verbatim (followed by the final flush), for every
style and compact configuration — no styling is applied and no
classification is performed. -/
theorem C3_markdown_passthrough (fs : FileSystem) (sink : SinkModel)
    (config : Config) (paths : List String)
    (hsink : ∀ n, sink.ok n = true)
    (hp : ∀ p ∈ paths, ∃ f, fs p = some f ∧ ∀ l ∈ f.lines, ∃ s, l = .ok s) :
    print_page fs sink (PageLookupResult.mk paths) true config
      = ((pageLines fs paths).map (fun s => .write (s ++ "\n")) ++ [.flush], .ok) := by
  rw [print_page]
  rw [printPaths_markdown_all_ok fs sink config hsink paths hp (OutState.mk 0 [])]
  simp [emit, hsink]

/-- Witness for C3 on a two-line page behind a single path. -/
theorem C3_markdown_passthrough_witness :
    (∀ n, (SinkModel.mk fun _ => true).ok n = true) ∧
    (∀ p ∈ ["p"],
      ∃ f, (fun _ => some (FileData.mk [Except.ok "# tar", Except.ok "raw `\x7b\x7bx\x7d\x7d`"]) :
          FileSystem) p = some f ∧ ∀ l ∈ f.lines, ∃ s, l = .ok s) ∧
    print_page (fun _ => some (FileData.mk [Except.ok "# tar", Except.ok "raw `\x7b\x7bx\x7d\x7d`"]))
        (SinkModel.mk fun _ => true) (PageLookupResult.mk ["p"]) true
        (Config.mk (StyleConfig.mk id id id id id) (DisplayConfig.mk true))
      = ((pageLines (fun _ => some (FileData.mk [Except.ok "# tar", Except.ok "raw `\x7b\x7bx\x7d\x7d`"]))
            ["p"]).map (fun s => .write (s ++ "\n")) ++ [.flush], .ok) :=
  ⟨fun _ => rfl,
    fun p _ => ⟨FileData.mk [Except.ok "# tar", Except.ok "raw `\x7b\x7bx\x7d\x7d`"], rfl,
      fun l hl => by
        simp at hl
        rcases hl with h | h <;> exact ⟨_, h⟩⟩,
    C3_markdown_passthrough
      (fun _ => some (FileData.mk [Except.ok "# tar", Except.ok "raw `\x7b\x7bx\x7d\x7d`"]))
      (SinkModel.mk fun _ => true)
      (Config.mk (StyleConfig.mk id id id id id) (DisplayConfig.mk true)) ["p"]
      (fun _ => rfl)
      (fun p _ => ⟨FileData.mk [Except.ok "# tar", Except.ok "raw `\x7b\x7bx\x7d\x7d`"], rfl,
        fun l hl => by
          simp at hl
          rcases hl with h | h <;> exact ⟨_, h⟩⟩)⟩

theorem emit_trace (sink : SinkModel) (op : SinkOp) (st st' : OutState)
    (h : emit sink op st = some st') : st'.trace = st.trace ++ [op] := by
  unfold emit at h
  split at h
  · cases h; rfl
  · cases h

/-- A trace extension containing no flush operation. -/
def FlushFree (ws : List SinkOp) : Prop := ∀ op ∈ ws, op.isFlush = false

theorem yield_snippet_trace (sink : SinkModel) (style : StyleConfig)
    (st : OutState) (snip : HighlightingSnippet) :
    ∃ ws, (yield_snippet sink style st snip).1.trace = st.trace ++ ws ∧
      FlushFree ws := by
  unfold yield_snippet
  by_cases he : snip.is_empty = true
  · exact ⟨[], by simp [he], fun op h => by cases h⟩
  · simp only [he]
    match hem : emit sink (.write (print_snippet style snip)) st with
    | some st' =>
      refine ⟨[.write (print_snippet style snip)], ?_, ?_⟩
      · simp [emit_trace _ _ _ _ hem]
      · intro op h; simp at h; subst h; rfl
    | none =>
      exact ⟨[], by simp, fun op h => by cases h⟩

theorem yieldSnippets_trace (sink : SinkModel) (style : StyleConfig) :
    ∀ (snips : List HighlightingSnippet) (st : OutState),
      ∃ ws, (yieldSnippets sink style snips st).1.trace = st.trace ++ ws ∧
        FlushFree ws := by
  intro snips
  induction snips with
  | nil => intro st; exact ⟨[], by simp [yieldSnippets], fun op h => by cases h⟩
  | cons s rest ih =>
    intro st
    rw [yieldSnippets]
    match hy : yield_snippet sink style st s with
    | (st', none) =>
      obtain ⟨ws₁, hw₁, hf₁⟩ := yield_snippet_trace sink style st s
      obtain ⟨ws₂, hw₂, hf₂⟩ := ih st'
      rw [hy] at hw₁
      refine ⟨ws₁ ++ ws₂, ?_, ?_⟩
      · simp at hw₁
        simp [hw₂, hw₁]
      · intro op h
        rcases List.mem_append.mp h with h | h
        · exact hf₁ op h
        · exact hf₂ op h
    | (st', some r) =>
      obtain ⟨ws₁, hw₁, hf₁⟩ := yield_snippet_trace sink style st s
      rw [hy] at hw₁
      exact ⟨ws₁, hw₁, hf₁⟩

theorem highlight_lines_trace (sink : SinkModel) (style : StyleConfig)
    (keep_empty_lines : Bool) :
    ∀ (lines : List (Except String String)) (last : Option RenderToken)
      (st : OutState),
      ∃ ws, (highlight_lines sink style keep_empty_lines lines last st).1.trace
          = st.trace ++ ws ∧ FlushFree ws := by
  intro lines
  induction lines with
  | nil => intro last st; exact ⟨[], by simp [highlight_lines], fun op h => by cases h⟩
  | cons l rest ih =>
    intro last st
    match l with
    | .error e => exact ⟨[], by simp [highlight_lines], fun op h => by cases h⟩
    | .ok line =>
      rw [highlight_lines]
      by_cases hc : keep_empty_lines = false ∧ compactKeep last (classifyLine line) = false
      · simp only [if_pos hc]
        exact ih last st
      · simp only [if_neg hc]
        match hy : yieldSnippets sink style (tokenSnippets (classifyLine line)) st with
        | (st', none) =>
          obtain ⟨ws₁, hw₁, hf₁⟩ := yieldSnippets_trace sink style
            (tokenSnippets (classifyLine line)) st
          obtain ⟨ws₂, hw₂, hf₂⟩ := ih (some (classifyLine line)) st'
          rw [hy] at hw₁
          refine ⟨ws₁ ++ ws₂, ?_, ?_⟩
          · simp at hw₁
            simp [hw₂, hw₁]
          · intro op h
            rcases List.mem_append.mp h with h | h
            · exact hf₁ op h
            · exact hf₂ op h
        | (st', some r) =>
          obtain ⟨ws₁, hw₁, hf₁⟩ := yieldSnippets_trace sink style
            (tokenSnippets (classifyLine line)) st
          rw [hy] at hw₁
          exact ⟨ws₁, hw₁, hf₁⟩

theorem printRawLines_trace (sink : SinkModel) :
    ∀ (lines : List (Except String String)) (st : OutState),
      ∃ ws, (printRawLines sink lines st).1.trace = st.trace ++ ws ∧
        FlushFree ws := by
  intro lines
  induction lines with
  | nil => intro st; exact ⟨[], by simp [printRawLines], fun op h => by cases h⟩
  | cons l rest ih =>
    intro st
    match l with
    | .error e => exact ⟨[], by simp [printRawLines], fun op h => by cases h⟩
    | .ok line =>
      rw [printRawLines]
      match hem : emit sink (.write (line ++ "\n")) st with
      | some st' =>
        obtain ⟨ws₂, hw₂, hf₂⟩ := ih st'
        refine ⟨[.write (line ++ "\n")] ++ ws₂, ?_, ?_⟩
        · simp [hw₂, emit_trace _ _ _ _ hem]
        · intro op h
          rcases List.mem_append.mp h with h | h
          · simp at h; subst h; rfl
          · exact hf₂ op h
      | none =>
        exact ⟨[], by simp, fun op h => by cases h⟩

theorem printPaths_trace (fs : FileSystem) (sink : SinkModel)
    (enable_markdown : Bool) (config : Config) :
    ∀ (paths : List String) (st : OutState),
      ∃ ws, (printPaths fs sink enable_markdown config paths st).1.trace
          = st.trace ++ ws ∧ FlushFree ws := by
  intro paths
  induction paths with
  | nil => intro st; exact ⟨[], by simp [printPaths], fun op h => by cases h⟩
  | cons p rest ih =>
    intro st
    rw [printPaths]
    match hfs : fs p with
    | none => exact ⟨[], by simp, fun op h => by cases h⟩
    | some file =>
      have hstep : ∃ ws, (if enable_markdown then printRawLines sink file.lines st
          else highlight_lines sink config.style (!config.display.compact)
            file.lines none st).1.trace = st.trace ++ ws ∧ FlushFree ws := by
        by_cases hm : enable_markdown
        · simp only [hm, if_true]
          exact printRawLines_trace sink file.lines st
        · simp only [hm, if_false]
          exact highlight_lines_trace sink config.style (!config.display.compact)
            file.lines none st
      match hs : (if enable_markdown then printRawLines sink file.lines st
          else highlight_lines sink config.style (!config.display.compact)
            file.lines none st) with
      | (st', none) =>
        obtain ⟨ws₁, hw₁, hf₁⟩ := hstep
        obtain ⟨ws₂, hw₂, hf₂⟩ := ih st'
        rw [hs] at hw₁
        simp at hw₁
        refine ⟨ws₁ ++ ws₂, ?_, ?_⟩
        · simp [hs, hw₂, hw₁]
        · intro op h
          rcases List.mem_append.mp h with h | h
          · exact hf₁ op h
          · exact hf₂ op h
      | (st', some r) =>
        obtain ⟨ws₁, hw₁, hf₁⟩ := hstep
        rw [hs] at hw₁
        simp at hw₁
        refine ⟨ws₁, ?_, hf₁⟩
        simp [hs, hw₁]

theorem yield_snippet_no_ok (sink : SinkModel) (style : StyleConfig)
    (st : OutState) (snip : HighlightingSnippet) :
    (yield_snippet sink style st snip).2 ≠ some .ok := by
  unfold yield_snippet
  by_cases he : snip.is_empty = true
  · simp [he]
  · simp only [he]
    match emit sink (.write (print_snippet style snip)) st with
    | some st' => simp
    | none => simp

theorem yieldSnippets_no_ok (sink : SinkModel) (style : StyleConfig) :
    ∀ (snips : List HighlightingSnippet) (st : OutState),
      (yieldSnippets sink style snips st).2 ≠ some .ok := by
  intro snips
  induction snips with
  | nil => intro st; simp [yieldSnippets]
  | cons s rest ih =>
    intro st
    rw [yieldSnippets]
    match hy : yield_snippet sink style st s with
    | (st', none) => exact ih st'
    | (st', some r) =>
      have := yield_snippet_no_ok sink style st s
      rw [hy] at this
      simpa using this

theorem highlight_lines_no_ok (sink : SinkModel) (style : StyleConfig)
    (keep_empty_lines : Bool) :
    ∀ (lines : List (Except String String)) (last : Option RenderToken)
      (st : OutState),
      (highlight_lines sink style keep_empty_lines lines last st).2 ≠ some .ok := by
  intro lines
  induction lines with
  | nil => intro last st; simp [highlight_lines]
  | cons l rest ih =>
    intro last st
    match l with
    | .error e => simp [highlight_lines]
    | .ok line =>
      rw [highlight_lines]
      by_cases hc : keep_empty_lines = false ∧ compactKeep last (classifyLine line) = false
      · simp only [if_pos hc]
        exact ih last st
      · simp only [if_neg hc]
        match hy : yieldSnippets sink style (tokenSnippets (classifyLine line)) st with
        | (st', none) => exact ih (some (classifyLine line)) st'
        | (st', some r) =>
          have := yieldSnippets_no_ok sink style (tokenSnippets (classifyLine line)) st
          rw [hy] at this
          simpa using this

theorem printRawLines_no_ok (sink : SinkModel) :
    ∀ (lines : List (Except String String)) (st : OutState),
      (printRawLines sink lines st).2 ≠ some .ok := by
  intro lines
  induction lines with
  | nil => intro st; simp [printRawLines]
  | cons l rest ih =>
    intro st
    match l with
    | .error e => simp [printRawLines]
    | .ok line =>
      rw [printRawLines]
      match emit sink (.write (line ++ "\n")) st with
      | some st' => exact ih st'
      | none => simp

theorem printPaths_no_ok (fs : FileSystem) (sink : SinkModel)
    (enable_markdown : Bool) (config : Config) :
    ∀ (paths : List String) (st : OutState),
      (printPaths fs sink enable_markdown config paths st).2 ≠ some .ok := by
  intro paths
  induction paths with
  | nil => intro st; simp [printPaths]
  | cons p rest ih =>
    intro st
    rw [printPaths]
    match fs p with
    | none => simp
    | some file =>
      have hstep : (if enable_markdown then printRawLines sink file.lines st
          else highlight_lines sink config.style (!config.display.compact)
            file.lines none st).2 ≠ some .ok := by
        by_cases hm : enable_markdown
        · simp only [hm, if_true]
          exact printRawLines_no_ok sink file.lines st
        · simp only [hm, if_false]
          exact highlight_lines_no_ok sink config.style (!config.display.compact)
            file.lines none st
      match hs : (if enable_markdown then printRawLines sink file.lines st
          else highlight_lines sink config.style (!config.display.compact)
            file.lines none st) with
      | (st', none) =>
        have := ih st'
        simp [hs]
        exact fun hcon => this (by simp [hcon])
      | (st', some r) =>
        rw [hs] at hstep
        simp at hstep
        simp [hs]
        exact fun hcon => hstep (by simp [hcon])

/-- C4 (amended): in every run of `print_page` that returns Ok, the sink
is flushed exactly once, as the very last sink operation, after all paths
of the resolved page have been written; no flush occurs per line or
between two files.  (A run that fails returns early without flushing.) -/
theorem C4_flush_once_on_success (fs : FileSystem) (sink : SinkModel)
    (page : PageLookupResult) (enable_markdown : Bool) (config : Config)
    (h : (print_page fs sink page enable_markdown config).2 = .ok) :
    ∃ ws, (print_page fs sink page enable_markdown config).1 = ws ++ [.flush] ∧
      FlushFree ws := by
  unfold print_page at h ⊢
  match hpp : printPaths fs sink enable_markdown config page.paths (OutState.mk 0 []) with
  | (st, some r) =>
    have hno := printPaths_no_ok fs sink enable_markdown config page.paths
      (OutState.mk 0 [])
    rw [hpp] at hno h
    simp at h hno
    exact absurd h hno
  | (st, none) =>
    rw [hpp] at h
    obtain ⟨ws, hw, hf⟩ := printPaths_trace fs sink enable_markdown config
      page.paths (OutState.mk 0 [])
    rw [hpp] at hw
    simp at hw
    match hem : emit sink .flush st with
    | some st' =>
      have ht := emit_trace _ _ _ _ hem
      refine ⟨ws, ?_, hf⟩
      simp [hem, ht, hw]
    | none =>
      simp [hem] at h

/-- Witness for C4 (amended) on a successful one-file markdown run. -/
theorem C4_flush_once_on_success_witness :
    (print_page (fun _ => some (FileData.mk [Except.ok "# tar"]))
        (SinkModel.mk fun _ => true) (PageLookupResult.mk ["p"]) true
        (Config.mk (StyleConfig.mk id id id id id) (DisplayConfig.mk false))).2 = .ok ∧
    ∃ ws, (print_page (fun _ => some (FileData.mk [Except.ok "# tar"]))
        (SinkModel.mk fun _ => true) (PageLookupResult.mk ["p"]) true
        (Config.mk (StyleConfig.mk id id id id id) (DisplayConfig.mk false))).1
      = ws ++ [.flush] ∧ FlushFree ws :=
  ⟨rfl, C4_flush_once_on_success (fun _ => some (FileData.mk [Except.ok "# tar"]))
    (SinkModel.mk fun _ => true) (PageLookupResult.mk ["p"]) true
    (Config.mk (StyleConfig.mk id id id id id) (DisplayConfig.mk false)) rfl⟩

/-- Counterexample to C4 as stated: a run of `print_page` in which the
first file fails to open returns an error having performed no sink
operation at all — in particular the sink is not flushed even once. -/
theorem C4_no_flush_on_error :
    print_page (fun _ => none) (SinkModel.mk fun _ => true)
        (PageLookupResult.mk ["missing"]) true
        (Config.mk (StyleConfig.mk id id id id id) (DisplayConfig.mk false))
      = ([], .err "Could not open file: missing") ∧
    ((print_page (fun _ => none) (SinkModel.mk fun _ => true)
        (PageLookupResult.mk ["missing"]) true
        (Config.mk (StyleConfig.mk id id id id id) (DisplayConfig.mk false))).1.countP
      (fun op => op.isFlush)) = 0 :=
  ⟨rfl, rfl⟩

end Tldr
